import Mathlib

/-
  Verification of the dispatch-and-completion server (src/main.go).

  The embedding has two layers:
  * a pure model of the HTTP request handlers (handleRun, handleGetMessage,
    handleDeleteMessage, handlePostMessage, countHandler) over an explicit
    server state, with the body-parsing outcome passed in as data; and
  * a small-step labelled transition system (Step, Run) for the concurrent
    core: the buffered task channel, the worker loop, the per-task goroutine,
    the single counter consumer, and the WaitGroup.

  Machine integers are modelled as Int; the Go channel of capacity 1000 is a
  list with an enqueue guard; JSON serialization is abstracted by the
  RespBody inductive (RespBody.jsonStatus s stands for the one-field JSON
  object with key status and value s).
-/

namespace SyncSrv


/-- Task, from src/main.go lines 20-25. -/
structure Task where
  id : Int
  task : String
  url : String
  sleepDuration : Int
deriving DecidableEq

/-- Message, from src/main.go lines 14-18. -/
structure Message where
  id : Int
  message : String
  task : Task
deriving DecidableEq

/-- Response bodies. Plain text stands for http.Error output; jsonStatus s
stands for the JSON object with single key status and value s; jsonMessage
and jsonCount stand for the JSON encodings of a Message and of the counter. -/
inductive RespBody
  | text (s : String)
  | jsonStatus (s : String)
  | jsonMessage (m : Message)
  | jsonCount (n : Int)
deriving DecidableEq

structure HttpResponse where
  status : Nat
  body : RespBody
deriving DecidableEq

/-- Per-task goroutine progress inside the concurrent core.
dequeued: a worker pulled the task from taskQueue (line 63) but has not yet
reached wg.Add(1); registered: wg.Add(1) at line 65 has run; running: the
anonymous goroutine (line 67) was launched and processTask is in progress;
executed: processTask returned (line 69); counted: the unbuffered send
counterChan less-than-minus 1 at line 71 has been received by the counter
goroutine, which performed taskCounter += increment (line 97); done: the
goroutine returned and its deferred wg.Done() (line 68) ran. -/
inductive Phase
  | dequeued
  | registered
  | running
  | executed
  | counted
  | done
deriving DecidableEq

/-- One dispatched task instance. outcome records the fetch result produced
by processTask once it has run: none when the task URL is empty (no fetch),
some true for err == nil, some false for a fetch error. -/
structure Exec where
  task : Task
  phase : Phase
  outcome : Option Bool
deriving DecidableEq

/-- The whole mutable state of the process, from the package-level vars of
src/main.go lines 27-36: messages and nextID (the record store), taskQueue
(contents of the buffered channel), the in-flight goroutines, the WaitGroup
counter wg, and taskCounter. -/
structure SysState where
  messages : List (Int × Message)
  nextID : Int
  queue : List Task
  execs : List Exec
  wg : Int
  taskCounter : Int
deriving DecidableEq

/-- Capacity of taskQueue, src/main.go line 31. -/
def queueCapacity : Nat := 1000

/-- Body of the counter goroutine loop, src/main.go line 97:
taskCounter += increment. -/
def counterStep (taskCounter increment : Int) : Int := taskCounter + increment

/-- incrementCounter, src/main.go lines 101-108 (the counterMutex-guarded
helper; it has no caller anywhere in the source). -/
def incrementCounter (taskCounter : Int) : Int := taskCounter + 1

/-! ### Task executor (processTask, src/main.go lines 76-93) -/

/-- Side effects of one processTask call. -/
inductive Eff
  | fetch (url : String) (ok : Bool)
  | sleepFor (secs : Int)
deriving DecidableEq

/-- Effect trace of processTask t: a fetch of t.url exactly when the URL is
non-empty (lines 77-85; on error only a log line differs), then a sleep of
t.sleepDuration seconds exactly when that is positive (lines 87-90). The
function always returns; fetchOk is the outcome of the fetch if one occurs. -/
def processTask (t : Task) (fetchOk : Bool) : List Eff :=
  (if t.url = "" then [] else [Eff.fetch t.url fetchOk]) ++
    (if 0 < t.sleepDuration then [Eff.sleepFor t.sleepDuration] else [])

def hasFetch (effs : List Eff) : Prop := ∃ u b, Eff.fetch u b ∈ effs

def hasSleep (effs : List Eff) : Prop := ∃ n, Eff.sleepFor n ∈ effs

/-- A recorded fetch outcome is consistent with processTask: there is an
outcome exactly when the task URL is non-empty. -/
def ocValid (t : Task) (oc : Option Bool) : Prop := oc = none ↔ t.url = ""

/-- An outcome witnessing that processTask can always run to completion. -/
def defaultOutcome (t : Task) : Option Bool :=
  if t.url = "" then none else some true

/-! ### HTTP handlers (pure model) -/

/-- The anonymous request struct of handleRun, src/main.go lines 125-128. -/
structure RunRequest where
  task : Task
  count : Int
deriving DecidableEq

/-- Outcome of io.ReadAll plus json.Unmarshal on the /run/ body. -/
inductive RunBody
  | readError
  | malformed
  | ok (req : RunRequest)
deriving DecidableEq

/-- handleRun, src/main.go lines 124-151. A read error yields 500 (line
132), a parse error 400 (line 137); otherwise the loop at lines 144-146
sends request.Count copies of request.Task to taskQueue (for an Int count
the loop runs count.toNat times) and the handler replies 202 with the
tasks-queued status object (lines 149-150). -/
def handleRun (body : RunBody) (st : SysState) : SysState × HttpResponse :=
  match body with
  | RunBody.readError => (st, ⟨500, RespBody.text "Error reading request body"⟩)
  | RunBody.malformed => (st, ⟨400, RespBody.text "Error parsing request body"⟩)
  | RunBody.ok req =>
      ({ st with queue := st.queue ++ List.replicate req.count.toNat req.task },
       ⟨202, RespBody.jsonStatus "tasks queued"⟩)

/-- countHandler, src/main.go lines 110-113: reads taskCounter, changes
nothing. -/
def countHandler (st : SysState) : SysState × HttpResponse :=
  (st, ⟨200, RespBody.jsonCount st.taskCounter⟩)

/-- The condition under which wg.Wait() in waitHandler (src/main.go line 55)
is unblocked and the handler can return: the WaitGroup counter is zero. -/
def waitCanReturn (s : SysState) : Prop := s.wg = 0

/-! ### strconv.Atoi model -/

def digitVal (c : Char) : Option Nat :=
  if c.isDigit then some (c.toNat - 48) else none

def parseDigitsAux : Nat → List Char → Option Nat
  | acc, [] => some acc
  | acc, c :: cs =>
      match digitVal c with
      | some d => parseDigitsAux (acc * 10 + d) cs
      | none => none

/-- At least one digit, all digits. -/
def parseDigits : List Char → Option Nat
  | [] => none
  | c :: cs =>
      match digitVal c with
      | some d => parseDigitsAux d cs
      | none => none

/-- Largest value of the Go int type (64-bit). -/
def goIntMax : Nat := 2 ^ 63 - 1

/-- strconv.Atoi: optional single leading sign, then one or more decimal
digits; anything else is an error (none), as is a value outside the 64-bit
int range. -/
def atoi (s : String) : Option Int :=
  match s.toList with
  | [] => none
  | c :: cs =>
      if c = Char.ofNat 43 then
        (parseDigits cs).bind (fun n => if n ≤ goIntMax then some ((n : Int)) else none)
      else if c = Char.ofNat 45 then
        (parseDigits cs).bind (fun n => if n ≤ goIntMax + 1 then some (-(n : Int)) else none)
      else
        (parseDigits (c :: cs)).bind (fun n => if n ≤ goIntMax then some ((n : Int)) else none)

/-- The id portion of the request path, src/main.go lines 167 and 213:
r.URL.Path with the 10 characters of the /messages/ root sliced off. -/
def msgPathId (path : String) : String := path.drop 10

/-- handleGetMessage, src/main.go lines 166-184. -/
def handleGetMessage (path : String) (st : SysState) : SysState × HttpResponse :=
  match atoi (msgPathId path) with
  | none => (st, ⟨400, RespBody.text "Invalid message ID"⟩)
  | some id =>
      match st.messages.lookup id with
      | none => (st, ⟨404, RespBody.text "Message not found"⟩)
      | some m => (st, ⟨200, RespBody.jsonMessage m⟩)

/-- handlePostMessage, src/main.go lines 186-210; the body argument is the
outcome of json.Unmarshal into a Message (none for a parse error). -/
def handlePostMessage (body : Option Message) (st : SysState) : SysState × HttpResponse :=
  match body with
  | none => (st, ⟨400, RespBody.text "Error parsing request body"⟩)
  | some m =>
      let m2 : Message := { m with id := st.nextID }
      ({ st with messages := st.messages ++ [(m2.id, m2)], nextID := st.nextID + 1 },
       ⟨201, RespBody.jsonMessage m2⟩)

/-- handleDeleteMessage, src/main.go lines 212-233. -/
def handleDeleteMessage (path : String) (st : SysState) : SysState × HttpResponse :=
  match atoi (msgPathId path) with
  | none => (st, ⟨400, RespBody.text "Invalid message ID"⟩)
  | some id =>
      match st.messages.lookup id with
      | none => (st, ⟨404, RespBody.text "Message not found"⟩)
      | some _ =>
          ({ st with messages := st.messages.filter (fun p => !(p.1 == id)) },
           ⟨200, RespBody.text ""⟩)

/-! ### The concurrent core as a labelled transition system -/

/-- Events of the core. enq is one send to taskQueue (from the loop at
src/main.go lines 144-146); all other events carry the index of the affected
Exec record in SysState.execs. -/
inductive Ev
  | enq (t : Task)
  | deq (i : Nat)
  | reg (i : Nat)
  | spawn (i : Nat)
  | finish (i : Nat) (oc : Option Bool)
  | count (i : Nat)
  | done (i : Nat)
deriving DecidableEq

/-- Replace the element at index i (out-of-range indices leave the list
unchanged). -/
def modifyAt (f : Exec → Exec) : Nat → List Exec → List Exec
  | _, [] => []
  | 0, e :: es => f e :: es
  | Nat.succ j, e :: es => e :: modifyAt f j es

/-- Small-step semantics of the core, one constructor per suspension-free
instruction of src/main.go:
* enq: taskQueue has a free slot and a producer sends (line 145);
* deq: a worker receives the head of taskQueue and enters the loop body
  (line 63), creating a fresh Exec record in phase dequeued;
* reg: the worker runs wg.Add(1) (line 65);
* spawn: the worker launches the anonymous goroutine (line 67);
* finish: processTask returns (line 69) having recorded the fetch outcome
  (none exactly when the URL was empty);
* count: the unbuffered counterChan rendezvous (send at line 71, receive
  and taskCounter += increment at lines 96-97) with increment = 1;
* done: the goroutine returns and its deferred wg.Done() (line 68) runs. -/
inductive Step : SysState → Ev → SysState → Prop
  | enq (s : SysState) (t : Task) (h : s.queue.length < queueCapacity) :
      Step s (Ev.enq t) { s with queue := s.queue ++ [t] }
  | deq (s : SysState) (t : Task) (rest : List Task) (h : s.queue = t :: rest) :
      Step s (Ev.deq s.execs.length)
        { s with queue := rest, execs := s.execs ++ [⟨t, Phase.dequeued, none⟩] }
  | reg (s : SysState) (i : Nat) (ex : Exec) (hi : s.execs[i]? = some ex)
      (hp : ex.phase = Phase.dequeued) :
      Step s (Ev.reg i)
        { s with execs := modifyAt (fun e => { e with phase := Phase.registered }) i s.execs,
                 wg := s.wg + 1 }
  | spawn (s : SysState) (i : Nat) (ex : Exec) (hi : s.execs[i]? = some ex)
      (hp : ex.phase = Phase.registered) :
      Step s (Ev.spawn i)
        { s with execs := modifyAt (fun e => { e with phase := Phase.running }) i s.execs }
  | finish (s : SysState) (i : Nat) (ex : Exec) (oc : Option Bool)
      (hi : s.execs[i]? = some ex) (hp : ex.phase = Phase.running)
      (hoc : ocValid ex.task oc) :
      Step s (Ev.finish i oc)
        { s with execs := modifyAt (fun e => { e with phase := Phase.executed, outcome := oc }) i s.execs }
  | count (s : SysState) (i : Nat) (ex : Exec) (hi : s.execs[i]? = some ex)
      (hp : ex.phase = Phase.executed) :
      Step s (Ev.count i)
        { s with execs := modifyAt (fun e => { e with phase := Phase.counted }) i s.execs,
                 taskCounter := counterStep s.taskCounter 1 }
  | done (s : SysState) (i : Nat) (ex : Exec) (hi : s.execs[i]? = some ex)
      (hp : ex.phase = Phase.counted) :
      Step s (Ev.done i)
        { s with execs := modifyAt (fun e => { e with phase := Phase.done }) i s.execs,
                 wg := s.wg - 1 }

/-- Finite runs: a trace of events between two states. -/
inductive Run : SysState → List Ev → SysState → Prop
  | nil (s : SysState) : Run s [] s
  | cons {s1 : SysState} {e : Ev} {s2 : SysState} {tr : List Ev} {s3 : SysState}
      (hs : Step s1 e s2) (hr : Run s2 tr s3) : Run s1 (e :: tr) s3

/-! ### WaitGroup accounting -/

/-- Contribution of a goroutine in a given phase to the WaitGroup counter:
one between wg.Add(1) and the deferred wg.Done(), zero outside. -/
def phaseWeight : Phase → Int
  | Phase.dequeued => 0
  | Phase.registered => 1
  | Phase.running => 1
  | Phase.executed => 1
  | Phase.counted => 1
  | Phase.done => 0

def execWeight (e : Exec) : Int := phaseWeight e.phase

/-- The value the WaitGroup counter must have, computed from the phases. -/
def wgSpec (s : SysState) : Int := (s.execs.map execWeight).sum

/-- State invariant: the WaitGroup counter agrees with the phase accounting
and the queue respects the channel capacity. -/
def Inv (s : SysState) : Prop := s.wg = wgSpec s ∧ s.queue.length ≤ queueCapacity

/-! ### Dispatched and returned counts (claim C3 vocabulary) -/

/-- A task counts as dispatched once the worker has registered it with the
barrier on the way to launching its execution. -/
def dispatchedWeight (p : Phase) : Int := if p = Phase.dequeued then 0 else 1

/-- A launched execution counts as returned once the goroutine has returned,
which is the instant its deferred wg.Done() runs. -/
def returnedWeight (p : Phase) : Int := if p = Phase.done then 1 else 0

def dispatchedCount (s : SysState) : Int :=
  (s.execs.map (fun e => dispatchedWeight e.phase)).sum

def returnedCount (s : SysState) : Int :=
  (s.execs.map (fun e => returnedWeight e.phase)).sum

/-- No launched execution is unfinished: every goroutine record is either
before its launch or fully done. -/
def NoInFlight (s : SysState) : Prop :=
  ∀ e ∈ s.execs, e.phase ≠ Phase.running ∧ e.phase ≠ Phase.executed ∧
    e.phase ≠ Phase.counted

/-! ### FIFO flow of tasks -/

def taskOf (e : Exec) : Task := e.task

/-- The tasks a trace enqueues, in order. -/
def enqList : List Ev → List Task
  | [] => []
  | Ev.enq t :: tr => t :: enqList tr
  | Ev.deq _ :: tr => enqList tr
  | Ev.reg _ :: tr => enqList tr
  | Ev.spawn _ :: tr => enqList tr
  | Ev.finish _ _ :: tr => enqList tr
  | Ev.count _ :: tr => enqList tr
  | Ev.done _ :: tr => enqList tr

/-! ### Termination measure and progress -/

def phaseRemaining : Phase → Nat
  | Phase.dequeued => 5
  | Phase.registered => 4
  | Phase.running => 3
  | Phase.executed => 2
  | Phase.counted => 1
  | Phase.done => 0

def sysMeasure (s : SysState) : Nat :=
  6 * s.queue.length + (s.execs.map (fun e => phaseRemaining e.phase)).sum

def isEnq : Ev → Bool
  | Ev.enq _ => true
  | _ => false

def noEnq (tr : List Ev) : Prop := ∀ e ∈ tr, isEnq e = false

/-- The system has fully finished: empty queue, every goroutine done. -/
def AllDone (s : SysState) : Prop :=
  s.queue = [] ∧ ∀ e ∈ s.execs, e.phase = Phase.done

/-- No internal (non-enqueue) step is possible. -/
def CoreStuck (s : SysState) : Prop :=
  ∀ e s1, Step s e s1 → isEnq e = true

/-! ### Counting events per dispatched task (claim C4 vocabulary) -/

inductive EvKind
  | deqK
  | regK
  | spawnK
  | finK
  | cntK
  | doneK
deriving DecidableEq

/-- Does the event belong to kind k for the task record at index i? -/
def evIs : EvKind → Nat → Ev → Bool
  | EvKind.deqK, i, Ev.deq j => if j = i then true else false
  | EvKind.regK, i, Ev.reg j => if j = i then true else false
  | EvKind.spawnK, i, Ev.spawn j => if j = i then true else false
  | EvKind.finK, i, Ev.finish j _ => if j = i then true else false
  | EvKind.cntK, i, Ev.count j => if j = i then true else false
  | EvKind.doneK, i, Ev.done j => if j = i then true else false
  | _, _, _ => false

/-- Number of events of kind k for index i in a trace. -/
def evCount (k : EvKind) (i : Nat) : List Ev → Nat
  | [] => 0
  | e :: tr => (if evIs k i e then 1 else 0) + evCount k i tr

def phaseNum : Phase → Nat
  | Phase.dequeued => 0
  | Phase.registered => 1
  | Phase.running => 2
  | Phase.executed => 3
  | Phase.counted => 4
  | Phase.done => 5

/-- The phase a record must have reached for an event of this kind to have
happened. -/
def kThresh : EvKind → Nat
  | EvKind.deqK => 0
  | EvKind.regK => 1
  | EvKind.spawnK => 2
  | EvKind.finK => 3
  | EvKind.cntK => 4
  | EvKind.doneK => 5

/-- How many events of kind k for index i the history of this exec list
accounts for: one when the record exists and has passed the threshold. -/
def contribL (k : EvKind) (i : Nat) (es : List Exec) : Nat :=
  match es[i]? with
  | some ex => if kThresh k ≤ phaseNum ex.phase then 1 else 0
  | none => 0

/-! ### Concrete runs used as witnesses -/

def wTask : Task := ⟨1, "demo", "", 0⟩

def ws0 : SysState := ⟨[], 1, [wTask], [], 0, 0⟩

def ws1 : SysState := ⟨[], 1, [], [⟨wTask, Phase.dequeued, none⟩], 0, 0⟩

def ws2 : SysState := ⟨[], 1, [], [⟨wTask, Phase.registered, none⟩], 1, 0⟩

def ws3 : SysState := ⟨[], 1, [], [⟨wTask, Phase.running, none⟩], 1, 0⟩

def ws4 : SysState := ⟨[], 1, [], [⟨wTask, Phase.executed, none⟩], 1, 0⟩

def ws5 : SysState := ⟨[], 1, [], [⟨wTask, Phase.counted, none⟩], 1, 1⟩

def ws6 : SysState := ⟨[], 1, [], [⟨wTask, Phase.done, none⟩], 0, 1⟩

def wtr : List Ev :=
  [Ev.deq 0, Ev.reg 0, Ev.spawn 0, Ev.finish 0 none, Ev.count 0, Ev.done 0]

/-! ### The failing scenario for claim C1: two tasks enqueued, the barrier
counter rises and returns to zero while the second task is still queued -/

def tA : Task := ⟨1, "noop", "", 0⟩

def tB : Task := ⟨2, "noop", "", 0⟩

def c1s0 : SysState := ⟨[], 1, [tA, tB], [], 0, 0⟩

def c1s1 : SysState := ⟨[], 1, [tB], [⟨tA, Phase.dequeued, none⟩], 0, 0⟩

def c1s2 : SysState := ⟨[], 1, [tB], [⟨tA, Phase.registered, none⟩], 1, 0⟩

def c1s3 : SysState := ⟨[], 1, [tB], [⟨tA, Phase.running, none⟩], 1, 0⟩

def c1s4 : SysState := ⟨[], 1, [tB], [⟨tA, Phase.executed, none⟩], 1, 0⟩

def c1s5 : SysState := ⟨[], 1, [tB], [⟨tA, Phase.counted, none⟩], 1, 1⟩

def c1s6 : SysState := ⟨[], 1, [tB], [⟨tA, Phase.done, none⟩], 0, 1⟩

def c1tr : List Ev :=
  [Ev.deq 0, Ev.reg 0, Ev.spawn 0, Ev.finish 0 none, Ev.count 0, Ev.done 0]

/-! ### Lemmas and claim theorems -/

/-! ### Basic list lemmas for modifyAt -/

lemma length_modifyAt (f : Exec → Exec) : ∀ (i : Nat) (es : List Exec),
    (modifyAt f i es).length = es.length := by
  intro i es
  induction es generalizing i with
  | nil => cases i <;> rfl
  | cons e es ih => cases i with
    | zero => rfl
    | succ j => simpa [modifyAt] using ih j

lemma getq_modifyAt_self (f : Exec → Exec) : ∀ (i : Nat) (es : List Exec) (ex : Exec),
    es[i]? = some ex → (modifyAt f i es)[i]? = some (f ex) := by
  intro i es
  induction es generalizing i with
  | nil => intro ex h; simp at h
  | cons e es ih =>
    intro ex h
    cases i with
    | zero => simp at h; simp [modifyAt, h]
    | succ j => simp at h; simpa [modifyAt] using ih j ex h

lemma getq_modifyAt_ne (f : Exec → Exec) : ∀ (i j : Nat) (es : List Exec),
    j ≠ i → (modifyAt f i es)[j]? = es[j]? := by
  intro i j es
  induction es generalizing i j with
  | nil => intro _; cases i <;> rfl
  | cons e es ih =>
    intro hne
    cases i with
    | zero => cases j with
      | zero => exact absurd rfl hne
      | succ k => simp [modifyAt]
    | succ m => cases j with
      | zero => simp [modifyAt]
      | succ k => simpa [modifyAt] using ih m k (by omega)

lemma map_modifyAt_congr {β : Type} (g : Exec → β) (f : Exec → Exec)
    (hgf : ∀ e, g (f e) = g e) : ∀ (i : Nat) (es : List Exec),
    (modifyAt f i es).map g = es.map g := by
  intro i es
  induction es generalizing i with
  | nil => cases i <;> rfl
  | cons e es ih => cases i with
    | zero => simp [modifyAt, hgf]
    | succ j => simpa [modifyAt] using ih j

lemma sum_map_modifyAt {M : Type} [AddCommMonoid M] (g : Exec → M) (f : Exec → Exec) :
    ∀ (i : Nat) (es : List Exec) (ex : Exec), es[i]? = some ex →
    ((modifyAt f i es).map g).sum + g ex = (es.map g).sum + g (f ex) := by
  intro i es
  induction es generalizing i with
  | nil => intro ex h; simp at h
  | cons e es ih =>
    intro ex h
    cases i with
    | zero =>
      simp at h
      subst h
      simp [modifyAt]
      abel
    | succ j =>
      simp at h
      have hrec := ih j ex h
      simp [modifyAt]
      rw [add_assoc, add_assoc, hrec]

lemma phaseWeight_nonneg (p : Phase) : 0 ≤ phaseWeight p := by
  cases p <;> simp [phaseWeight]

lemma wgSpec_nonneg (s : SysState) : 0 ≤ wgSpec s := by
  refine List.sum_nonneg ?_
  intro x hx
  obtain ⟨e, _, rfl⟩ := List.mem_map.1 hx
  exact phaseWeight_nonneg e.phase

lemma inv_step {s : SysState} {e : Ev} {s1 : SysState}
    (hs : Step s e s1) (hi : Inv s) : Inv s1 := by
  obtain ⟨hw, hq⟩ := hi
  cases hs with
  | enq t h =>
    refine ⟨by simpa [wgSpec] using hw, ?_⟩
    simpa using h
  | deq t rest h =>
    constructor
    · simp [wgSpec, execWeight, phaseWeight] at hw ⊢
      exact hw
    · rw [h] at hq
      simp at hq ⊢
      omega
  | reg i ex hi hp =>
    have hsum := sum_map_modifyAt execWeight
      (fun e => { e with phase := Phase.registered }) i s.execs ex hi
    simp [execWeight, hp, phaseWeight] at hsum
    refine ⟨?_, by simpa using hq⟩
    simp [wgSpec] at hw ⊢
    omega
  | spawn i ex hi hp =>
    have hsum := sum_map_modifyAt execWeight
      (fun e => { e with phase := Phase.running }) i s.execs ex hi
    simp [execWeight, hp, phaseWeight] at hsum
    refine ⟨?_, by simpa using hq⟩
    simp [wgSpec] at hw ⊢
    omega
  | finish i ex oc hi hp hoc =>
    have hsum := sum_map_modifyAt execWeight
      (fun e => { e with phase := Phase.executed, outcome := oc }) i s.execs ex hi
    simp [execWeight, hp, phaseWeight] at hsum
    refine ⟨?_, by simpa using hq⟩
    simp [wgSpec] at hw ⊢
    omega
  | count i ex hi hp =>
    have hsum := sum_map_modifyAt execWeight
      (fun e => { e with phase := Phase.counted }) i s.execs ex hi
    simp [execWeight, hp, phaseWeight] at hsum
    refine ⟨?_, by simpa using hq⟩
    simp [wgSpec] at hw ⊢
    omega
  | done i ex hi hp =>
    have hsum := sum_map_modifyAt execWeight
      (fun e => { e with phase := Phase.done }) i s.execs ex hi
    simp [execWeight, hp, phaseWeight] at hsum
    refine ⟨?_, by simpa using hq⟩
    simp [wgSpec] at hw ⊢
    omega

lemma inv_run {s0 : SysState} {tr : List Ev} {s : SysState}
    (hr : Run s0 tr s) (hi : Inv s0) : Inv s := by
  induction hr with
  | nil s => exact hi
  | cons hs _ ih => exact ih (inv_step hs hi)

lemma sum_weights (es : List Exec) :
    (es.map execWeight).sum =
      (es.map (fun e => dispatchedWeight e.phase)).sum -
        (es.map (fun e => returnedWeight e.phase)).sum := by
  induction es with
  | nil => simp
  | cons e es ih =>
    simp only [List.map_cons, List.sum_cons]
    have he : execWeight e = dispatchedWeight e.phase - returnedWeight e.phase := by
      cases hp : e.phase <;>
        simp [execWeight, phaseWeight, dispatchedWeight, returnedWeight, hp]
    omega

lemma wgSpec_eq (s : SysState) :
    wgSpec s = dispatchedCount s - returnedCount s :=
  sum_weights s.execs

lemma execWeight_zero_of_sum_zero (es : List Exec)
    (h : (es.map execWeight).sum = 0) : ∀ e ∈ es, execWeight e = 0 := by
  induction es with
  | nil => simp
  | cons e es ih =>
    simp only [List.map_cons, List.sum_cons] at h
    have h1 : 0 ≤ execWeight e := phaseWeight_nonneg e.phase
    have h2 : 0 ≤ (es.map execWeight).sum := by
      refine List.sum_nonneg ?_
      intro x hx
      obtain ⟨a, _, rfl⟩ := List.mem_map.1 hx
      exact phaseWeight_nonneg a.phase
    intro x hx
    rcases List.mem_cons.1 hx with rfl | hx1
    · omega
    · exact ih (by omega) x hx1

lemma noInFlight_of_wg_zero {s : SysState} (hi : Inv s) (hz : s.wg = 0) :
    NoInFlight s := by
  intro e he
  have h1 := hi.1
  have h0 : (s.execs.map execWeight).sum = 0 := by
    have h2 : wgSpec s = 0 := by omega
    simpa [wgSpec] using h2
  have hzero : execWeight e = 0 := execWeight_zero_of_sum_zero s.execs h0 e he
  cases hp : e.phase <;> simp [execWeight, hp, phaseWeight] at hzero ⊢

lemma enqList_cons (e : Ev) (tr : List Ev) :
    enqList (e :: tr) = enqList [e] ++ enqList tr := by
  cases e <;> simp [enqList]

lemma step_flow {s : SysState} {e : Ev} {s1 : SysState} (hs : Step s e s1) :
    s1.execs.map taskOf ++ s1.queue =
      (s.execs.map taskOf ++ s.queue) ++ enqList [e] := by
  cases hs with
  | enq t h => simp [enqList]
  | deq t rest h => simp [enqList, h, taskOf]
  | reg i ex hi hp =>
    simp [enqList, map_modifyAt_congr taskOf (fun e => { e with phase := Phase.registered }) (fun e => rfl)]
  | spawn i ex hi hp =>
    simp [enqList, map_modifyAt_congr taskOf (fun e => { e with phase := Phase.running }) (fun e => rfl)]
  | finish i ex oc hi hp hoc =>
    simp [enqList, map_modifyAt_congr taskOf (fun e => { e with phase := Phase.executed, outcome := oc }) (fun e => rfl)]
  | count i ex hi hp =>
    simp [enqList, map_modifyAt_congr taskOf (fun e => { e with phase := Phase.counted }) (fun e => rfl)]
  | done i ex hi hp =>
    simp [enqList, map_modifyAt_congr taskOf (fun e => { e with phase := Phase.done }) (fun e => rfl)]

lemma run_flow {s0 : SysState} {tr : List Ev} {s : SysState} (hr : Run s0 tr s) :
    s.execs.map taskOf ++ s.queue =
      (s0.execs.map taskOf ++ s0.queue) ++ enqList tr := by
  induction hr with
  | nil s => simp [enqList]
  | cons hs _ ih =>
    rw [ih, step_flow hs]
    simp [List.append_assoc, ← enqList_cons]

lemma step_measure {s : SysState} {e : Ev} {s1 : SysState}
    (hs : Step s e s1) (he : isEnq e = false) : sysMeasure s1 < sysMeasure s := by
  cases hs with
  | enq t h => simp [isEnq] at he
  | deq t rest h =>
    simp [sysMeasure, h, phaseRemaining]
    omega
  | reg i ex hi hp =>
    have hsum := sum_map_modifyAt (fun e => phaseRemaining e.phase)
      (fun e => { e with phase := Phase.registered }) i s.execs ex hi
    simp only [hp] at hsum
    have hv1 : phaseRemaining Phase.dequeued = 5 := rfl
    have hv2 : phaseRemaining Phase.registered = 4 := rfl
    rw [hv1, hv2] at hsum
    simp [sysMeasure]
    omega
  | spawn i ex hi hp =>
    have hsum := sum_map_modifyAt (fun e => phaseRemaining e.phase)
      (fun e => { e with phase := Phase.running }) i s.execs ex hi
    simp only [hp] at hsum
    have hv1 : phaseRemaining Phase.registered = 4 := rfl
    have hv2 : phaseRemaining Phase.running = 3 := rfl
    rw [hv1, hv2] at hsum
    simp [sysMeasure]
    omega
  | finish i ex oc hi hp hoc =>
    have hsum := sum_map_modifyAt (fun e => phaseRemaining e.phase)
      (fun e => { e with phase := Phase.executed, outcome := oc }) i s.execs ex hi
    simp only [hp] at hsum
    have hv1 : phaseRemaining Phase.running = 3 := rfl
    have hv2 : phaseRemaining Phase.executed = 2 := rfl
    rw [hv1, hv2] at hsum
    simp [sysMeasure]
    omega
  | count i ex hi hp =>
    have hsum := sum_map_modifyAt (fun e => phaseRemaining e.phase)
      (fun e => { e with phase := Phase.counted }) i s.execs ex hi
    simp only [hp] at hsum
    have hv1 : phaseRemaining Phase.executed = 2 := rfl
    have hv2 : phaseRemaining Phase.counted = 1 := rfl
    rw [hv1, hv2] at hsum
    simp [sysMeasure]
    omega
  | done i ex hi hp =>
    have hsum := sum_map_modifyAt (fun e => phaseRemaining e.phase)
      (fun e => { e with phase := Phase.done }) i s.execs ex hi
    simp only [hp] at hsum
    have hv1 : phaseRemaining Phase.counted = 1 := rfl
    have hv2 : phaseRemaining Phase.done = 0 := rfl
    rw [hv1, hv2] at hsum
    simp [sysMeasure]
    omega

lemma run_measure {s0 : SysState} {tr : List Ev} {s : SysState}
    (hr : Run s0 tr s) (hne : noEnq tr) :
    tr.length + sysMeasure s ≤ sysMeasure s0 := by
  induction hr with
  | nil s => simp
  | cons hs _ ih =>
    have he := hne _ (List.mem_cons_self _ _)
    have h1 := step_measure hs he
    have h2 := ih (fun x hx => hne x (List.mem_cons_of_mem _ hx))
    simp only [List.length_cons]
    omega

lemma ocValid_default (t : Task) : ocValid t (defaultOutcome t) := by
  unfold ocValid defaultOutcome
  by_cases h : t.url = "" <;> simp [h]

lemma allDone_wg {s : SysState} (hi : Inv s) (hd : AllDone s) : s.wg = 0 := by
  have hz : wgSpec s = 0 := by
    refine List.sum_eq_zero ?_
    intro x hx
    obtain ⟨e, he, rfl⟩ := List.mem_map.1 hx
    simp [execWeight, hd.2 e he, phaseWeight]
  rw [hi.1, hz]

lemma allDone_coreStuck {s : SysState} (hd : AllDone s) : CoreStuck s := by
  intro e s1 hs
  cases hs with
  | enq t h => rfl
  | deq t rest h => rw [hd.1] at h; cases h
  | reg i ex hi hp =>
    have := hd.2 ex (List.getElem?_mem hi)
    rw [this] at hp
    cases hp
  | spawn i ex hi hp =>
    have := hd.2 ex (List.getElem?_mem hi)
    rw [this] at hp
    cases hp
  | finish i ex oc hi hp hoc =>
    have := hd.2 ex (List.getElem?_mem hi)
    rw [this] at hp
    cases hp
  | count i ex hi hp =>
    have := hd.2 ex (List.getElem?_mem hi)
    rw [this] at hp
    cases hp
  | done i ex hi hp =>
    have := hd.2 ex (List.getElem?_mem hi)
    rw [this] at hp
    cases hp

lemma progress {s : SysState} (hnd : ¬ AllDone s) :
    ∃ e s1, Step s e s1 ∧ isEnq e = false := by
  by_cases hq : s.queue = []
  · have hex : ∃ ex ∈ s.execs, ex.phase ≠ Phase.done := by
      by_contra hall
      push_neg at hall
      exact hnd ⟨hq, hall⟩
    obtain ⟨ex, hmem, hph⟩ := hex
    obtain ⟨n, hget⟩ := List.get_of_mem hmem
    have hi : s.execs[n.1]? = some ex := by
      rw [List.getElem?_eq_getElem n.2]
      simpa using congrArg some hget
    cases hp : ex.phase with
    | dequeued => exact ⟨Ev.reg n.1, _, Step.reg s n.1 ex hi hp, rfl⟩
    | registered => exact ⟨Ev.spawn n.1, _, Step.spawn s n.1 ex hi hp, rfl⟩
    | running =>
      exact ⟨Ev.finish n.1 (defaultOutcome ex.task), _,
        Step.finish s n.1 ex (defaultOutcome ex.task) hi hp (ocValid_default ex.task), rfl⟩
    | executed => exact ⟨Ev.count n.1, _, Step.count s n.1 ex hi hp, rfl⟩
    | counted => exact ⟨Ev.done n.1, _, Step.done s n.1 ex hi hp, rfl⟩
    | done => exact absurd hp hph
  · obtain ⟨t, rest, hq1⟩ : ∃ t rest, s.queue = t :: rest := by
      cases hqq : s.queue with
      | nil => exact absurd hqq hq
      | cons a l => exact ⟨a, l, rfl⟩
    exact ⟨Ev.deq s.execs.length, _, Step.deq s t rest hq1, rfl⟩

lemma coreStuck_allDone {s : SysState} (hcs : CoreStuck s) : AllDone s := by
  by_contra hnd
  obtain ⟨e, s1, hs, he⟩ := progress hnd
  rw [hcs e s1 hs] at he
  cases he

lemma drain_to_stuck : ∀ (n : Nat) (s : SysState), Inv s → sysMeasure s ≤ n →
    ∃ tr s1, Run s tr s1 ∧ noEnq tr ∧ CoreStuck s1 ∧ s1.wg = 0 := by
  intro n
  induction n with
  | zero =>
    intro s hi hm
    by_cases hd : AllDone s
    · exact ⟨[], s, Run.nil s, by simp [noEnq], allDone_coreStuck hd, allDone_wg hi hd⟩
    · obtain ⟨e, s1, hs, he⟩ := progress hd
      have := step_measure hs he
      omega
  | succ n ih =>
    intro s hi hm
    by_cases hd : AllDone s
    · exact ⟨[], s, Run.nil s, by simp [noEnq], allDone_coreStuck hd, allDone_wg hi hd⟩
    · obtain ⟨e, s1, hs, he⟩ := progress hd
      have hlt := step_measure hs he
      obtain ⟨tr, s2, hr, hne, hcs, hwg⟩ := ih s1 (inv_step hs hi) (by omega)
      refine ⟨e :: tr, s2, Run.cons hs hr, ?_, hcs, hwg⟩
      intro x hx
      rcases List.mem_cons.1 hx with rfl | hx1
      · exact he
      · exact hne x hx1

lemma contribL_le_one (k : EvKind) (i : Nat) (es : List Exec) :
    contribL k i es ≤ 1 := by
  cases h : es[i]? with
  | none => simp [contribL, h]
  | some ex =>
    simp only [contribL, h]
    split <;> omega

lemma contribL_mono (k1 k2 : EvKind) (i : Nat) (es : List Exec)
    (hk : kThresh k1 ≤ kThresh k2) : contribL k2 i es ≤ contribL k1 i es := by
  cases h : es[i]? with
  | none => simp [contribL, h]
  | some ex =>
    simp only [contribL, h]
    by_cases h2 : kThresh k2 ≤ phaseNum ex.phase
    · rw [if_pos h2, if_pos (le_trans hk h2)]
    · rw [if_neg h2]
      split <;> omega

lemma step_contrib {s : SysState} {e : Ev} {s1 : SysState} (hs : Step s e s1) :
    ∀ (k : EvKind) (i : Nat),
      (if evIs k i e then 1 else 0) + contribL k i s.execs = contribL k i s1.execs := by
  cases hs with
  | enq t h =>
    intro k i
    cases k <;> simp [evIs, contribL]
  | deq t rest h =>
    intro k i
    rcases Nat.lt_trichotomy i s.execs.length with hlt | heq | hgt
    · have h1 : (s.execs ++ [(⟨t, Phase.dequeued, none⟩ : Exec)])[i]? = s.execs[i]? :=
        List.getElem?_append_left hlt
      have h2 : evIs k i (Ev.deq s.execs.length) = false := by
        cases k <;> simp [evIs] <;> omega
      simp [contribL, h1, h2]
    · subst heq
      have h0 : s.execs[s.execs.length]? = none := List.getElem?_eq_none le_rfl
      have h1 : (s.execs ++ [(⟨t, Phase.dequeued, none⟩ : Exec)])[s.execs.length]? =
          some (⟨t, Phase.dequeued, none⟩ : Exec) := List.getElem?_concat_length s.execs _
      cases k <;> simp [contribL, h0, h1, evIs, kThresh, phaseNum]
    · have h0 : s.execs[i]? = none := List.getElem?_eq_none (by omega)
      have h1 : (s.execs ++ [(⟨t, Phase.dequeued, none⟩ : Exec)])[i]? = none :=
        List.getElem?_eq_none (by simp; omega)
      have h2 : evIs k i (Ev.deq s.execs.length) = false := by
        cases k <;> simp [evIs] <;> omega
      simp [contribL, h0, h1, h2]
  | reg i9 ex hi hp =>
    intro k i
    by_cases hii : i = i9
    · subst hii
      have h1 := getq_modifyAt_self (fun e => { e with phase := Phase.registered }) i s.execs ex hi
      cases k <;> simp [contribL, hi, h1, hp, evIs, kThresh, phaseNum]
    · have h1 := getq_modifyAt_ne (fun e => { e with phase := Phase.registered }) i9 i s.execs hii
      have h2 : evIs k i (Ev.reg i9) = false := by
        cases k <;> simp [evIs] <;> omega
      simp [contribL, h1, h2]
  | spawn i9 ex hi hp =>
    intro k i
    by_cases hii : i = i9
    · subst hii
      have h1 := getq_modifyAt_self (fun e => { e with phase := Phase.running }) i s.execs ex hi
      cases k <;> simp [contribL, hi, h1, hp, evIs, kThresh, phaseNum]
    · have h1 := getq_modifyAt_ne (fun e => { e with phase := Phase.running }) i9 i s.execs hii
      have h2 : evIs k i (Ev.spawn i9) = false := by
        cases k <;> simp [evIs] <;> omega
      simp [contribL, h1, h2]
  | finish i9 ex oc hi hp hoc =>
    intro k i
    by_cases hii : i = i9
    · subst hii
      have h1 := getq_modifyAt_self
        (fun e => { e with phase := Phase.executed, outcome := oc }) i s.execs ex hi
      cases k <;> simp [contribL, hi, h1, hp, evIs, kThresh, phaseNum]
    · have h1 := getq_modifyAt_ne
        (fun e => { e with phase := Phase.executed, outcome := oc }) i9 i s.execs hii
      have h2 : evIs k i (Ev.finish i9 oc) = false := by
        cases k <;> simp [evIs] <;> omega
      simp [contribL, h1, h2]
  | count i9 ex hi hp =>
    intro k i
    by_cases hii : i = i9
    · subst hii
      have h1 := getq_modifyAt_self (fun e => { e with phase := Phase.counted }) i s.execs ex hi
      cases k <;> simp [contribL, hi, h1, hp, evIs, kThresh, phaseNum]
    · have h1 := getq_modifyAt_ne (fun e => { e with phase := Phase.counted }) i9 i s.execs hii
      have h2 : evIs k i (Ev.count i9) = false := by
        cases k <;> simp [evIs] <;> omega
      simp [contribL, h1, h2]
  | done i9 ex hi hp =>
    intro k i
    by_cases hii : i = i9
    · subst hii
      have h1 := getq_modifyAt_self (fun e => { e with phase := Phase.done }) i s.execs ex hi
      cases k <;> simp [contribL, hi, h1, hp, evIs, kThresh, phaseNum]
    · have h1 := getq_modifyAt_ne (fun e => { e with phase := Phase.done }) i9 i s.execs hii
      have h2 : evIs k i (Ev.done i9) = false := by
        cases k <;> simp [evIs] <;> omega
      simp [contribL, h1, h2]

lemma run_contrib {s0 : SysState} {tr : List Ev} {s : SysState} (hr : Run s0 tr s) :
    ∀ (k : EvKind) (i : Nat),
      evCount k i tr + contribL k i s0.execs = contribL k i s.execs := by
  induction hr with
  | nil s => intro k i; simp [evCount]
  | cons hs _ ih =>
    intro k i
    have h1 := step_contrib hs k i
    have h2 := ih k i
    simp only [evCount]
    omega

lemma run_append_split : ∀ (tr1 : List Ev) (s0 : SysState) (tr2 : List Ev) (s : SysState),
    Run s0 (tr1 ++ tr2) s → ∃ m, Run s0 tr1 m ∧ Run m tr2 s := by
  intro tr1
  induction tr1 with
  | nil => intro s0 tr2 s h; exact ⟨s0, Run.nil s0, h⟩
  | cons e tr1 ih =>
    intro s0 tr2 s h
    simp only [List.cons_append] at h
    cases h with
    | cons hs hr =>
      obtain ⟨m, h1, h2⟩ := ih _ tr2 s hr
      exact ⟨m, Run.cons hs h1, h2⟩

lemma wst1 : Step ws0 (Ev.deq 0) ws1 := Step.deq ws0 wTask [] rfl

lemma wst2 : Step ws1 (Ev.reg 0) ws2 :=
  Step.reg ws1 0 ⟨wTask, Phase.dequeued, none⟩ rfl rfl

lemma wst3 : Step ws2 (Ev.spawn 0) ws3 :=
  Step.spawn ws2 0 ⟨wTask, Phase.registered, none⟩ rfl rfl

lemma wst4 : Step ws3 (Ev.finish 0 none) ws4 :=
  Step.finish ws3 0 ⟨wTask, Phase.running, none⟩ none rfl rfl
    (Iff.intro (fun _ => rfl) (fun _ => rfl))

lemma wst5 : Step ws4 (Ev.count 0) ws5 :=
  Step.count ws4 0 ⟨wTask, Phase.executed, none⟩ rfl rfl

lemma wst6 : Step ws5 (Ev.done 0) ws6 :=
  Step.done ws5 0 ⟨wTask, Phase.counted, none⟩ rfl rfl

lemma wrun02 : Run ws0 [Ev.deq 0, Ev.reg 0] ws2 :=
  Run.cons wst1 (Run.cons wst2 (Run.nil ws2))

lemma wrun06 : Run ws0 wtr ws6 :=
  Run.cons wst1 (Run.cons wst2 (Run.cons wst3 (Run.cons wst4
    (Run.cons wst5 (Run.cons wst6 (Run.nil ws6))))))

lemma c1st1 : Step c1s0 (Ev.deq 0) c1s1 := Step.deq c1s0 tA [tB] rfl

lemma c1st2 : Step c1s1 (Ev.reg 0) c1s2 :=
  Step.reg c1s1 0 ⟨tA, Phase.dequeued, none⟩ rfl rfl

lemma c1st3 : Step c1s2 (Ev.spawn 0) c1s3 :=
  Step.spawn c1s2 0 ⟨tA, Phase.registered, none⟩ rfl rfl

lemma c1st4 : Step c1s3 (Ev.finish 0 none) c1s4 :=
  Step.finish c1s3 0 ⟨tA, Phase.running, none⟩ none rfl rfl
    (Iff.intro (fun _ => rfl) (fun _ => rfl))

lemma c1st5 : Step c1s4 (Ev.count 0) c1s5 :=
  Step.count c1s4 0 ⟨tA, Phase.executed, none⟩ rfl rfl

lemma c1st6 : Step c1s5 (Ev.done 0) c1s6 :=
  Step.done c1s5 0 ⟨tA, Phase.counted, none⟩ rfl rfl

lemma c1run : Run c1s0 c1tr c1s6 :=
  Run.cons c1st1 (Run.cons c1st2 (Run.cons c1st3 (Run.cons c1st4
    (Run.cons c1st5 (Run.cons c1st6 (Run.nil c1s6))))))

lemma c1run_mid : Run c1s0 [Ev.deq 0, Ev.reg 0] c1s2 :=
  Run.cons c1st1 (Run.cons c1st2 (Run.nil c1s2))

/-! ### Claim theorems -/

/-- Claim C1: the claim states that after N tasks have been enqueued and the
system fully drains, where the claim defines draining as the
outstanding-count returning to zero with no concurrent new enqueues, the
Completed-total equals its prior value plus exactly N. The code refutes
this: wg.Add(1) runs only after a worker dequeues a task (src/main.go line
65), so queued tasks are invisible to the WaitGroup. This theorem exhibits
the failing run for N = 2: from c1s0 (two tasks enqueued, taskCounter 0,
wg 0) the outstanding-count rises to 1 and returns to 0 with no enqueue
event, the system is drained in the claim's sense (waitCanReturn holds),
yet Completed-total increased by exactly 1, not 2 - the second task still
sits in the queue. This also contradicts the comment on src/main.go line 55
(wait for all tasks to complete). -/
theorem C1_drain_undercount :
    Run c1s0 [Ev.deq 0, Ev.reg 0] c1s2 ∧ c1s2.wg = 1 ∧
    Run c1s2 [Ev.spawn 0, Ev.finish 0 none, Ev.count 0, Ev.done 0] c1s6 ∧
    noEnq c1tr ∧ Inv c1s0 ∧ c1s0.queue.length = 2 ∧ c1s6.wg = 0 ∧
    waitCanReturn c1s6 ∧
    c1s6.taskCounter = c1s0.taskCounter + 1 ∧
    ¬ c1s6.taskCounter = c1s0.taskCounter + 2 := by
  refine ⟨c1run_mid, rfl, ?_, by unfold noEnq; decide, ⟨by decide, by decide⟩, rfl, rfl, rfl,
    by decide, by decide⟩
  exact Run.cons c1st3 (Run.cons c1st4 (Run.cons c1st5 (Run.cons c1st6 (Run.nil c1s6))))

/-- Claim C2: for every sequence of enqueued tasks with no concurrent new
enqueues, a wait() call eventually returns, and at the moment it returns the
outstanding-count is 0; a wait() call made when the outstanding-count is
already 0 returns immediately. Formally: (1) every run without enqueue
events has length at most the termination measure, so no infinite
drain-phase execution exists; (2) from any state satisfying the WaitGroup
invariant the system reaches, by internal steps only, a state where no
internal step remains and wg.Wait() is unblocked; (3) whenever no internal
step remains, wg.Wait() is unblocked; (4) wg.Wait() returns exactly when
the counter is 0, so a wait() issued when the outstanding-count is already
0 is unblocked at once, and at the moment any wait() returns the
outstanding-count is 0 by definition of waitCanReturn. -/
theorem C2_wait_returns :
    (∀ (s0 : SysState) (tr : List Ev) (s : SysState), Run s0 tr s → noEnq tr →
        tr.length ≤ sysMeasure s0) ∧
    (∀ s : SysState, Inv s →
        ∃ tr s1, Run s tr s1 ∧ noEnq tr ∧ CoreStuck s1 ∧ waitCanReturn s1) ∧
    (∀ s : SysState, Inv s → CoreStuck s → waitCanReturn s) ∧
    (∀ s : SysState, s.wg = 0 → waitCanReturn s) := by
  refine ⟨?_, ?_, ?_, fun s h => h⟩
  · intro s0 tr s hr hne
    have h := run_measure hr hne
    omega
  · intro s hi
    exact drain_to_stuck (sysMeasure s) s hi le_rfl
  · intro s hi hcs
    exact allDone_wg hi (coreStuck_allDone hcs)

theorem C2_wait_returns_witness :
    ([Ev.deq 0, Ev.reg 0].length ≤ sysMeasure ws0) ∧
    (∃ tr s1, Run ws6 tr s1 ∧ noEnq tr ∧ CoreStuck s1 ∧ waitCanReturn s1) ∧
    waitCanReturn ws6 :=
  ⟨C2_wait_returns.1 ws0 [Ev.deq 0, Ev.reg 0] ws2 wrun02 (by unfold noEnq; decide),
   C2_wait_returns.2.1 ws6 ⟨by decide, by decide⟩,
   C2_wait_returns.2.2.2 ws6 rfl⟩

/-- Claim C3: in every reachable state the outstanding-count equals the
number of tasks dequeued and dispatched minus the number of task executions
that have returned; it is never negative, and it is zero only when no
execution is in flight. Here a task is dispatched once the worker has
registered it with the barrier on the way to launching it (wg.Add(1),
src/main.go line 65), and a launched execution has returned once the
spawned goroutine returns - the instant its deferred wg.Done() runs
(line 68). NoInFlight states that no execution is between its launch and
its return. -/
theorem C3_outstanding_accounting :
    ∀ (s0 : SysState) (tr : List Ev) (s : SysState), Run s0 tr s → Inv s0 →
      s.wg = dispatchedCount s - returnedCount s ∧ 0 ≤ s.wg ∧
        (s.wg = 0 → NoInFlight s) := by
  intro s0 tr s hr hi
  have h := inv_run hr hi
  refine ⟨?_, ?_, fun hz => noInFlight_of_wg_zero h hz⟩
  · rw [h.1, wgSpec_eq]
  · rw [h.1]
    exact wgSpec_nonneg s

theorem C3_outstanding_accounting_witness :
    ws2.wg = dispatchedCount ws2 - returnedCount ws2 ∧ 0 ≤ ws2.wg ∧
      (ws2.wg = 0 → NoInFlight ws2) :=
  C3_outstanding_accounting ws0 [Ev.deq 0, Ev.reg 0] ws2 wrun02 ⟨by decide, by decide⟩

/-- Claim C4: for every task dequeued by a worker, the barrier registration
(wg.Add(1)) happens exactly once and before the execution is launched, and
the two completion signals - the barrier decrement (wg.Done()) and the
aggregator increment (the counterChan send) - each happen exactly once and
only after the Task Executor (processTask) has returned. Formally, for any
run starting with no goroutine records and for each record index i: on
every trace prefix the registration occurs at most once, the launch count
never exceeds the registration count (register before launch), and each
completion signal occurs at most once and never before processTask has
returned (its count never exceeds the finish count); and once the record
reaches phase done, each of these events has occurred exactly once. -/
theorem C4_per_task_signals :
    ∀ (s0 : SysState) (tr : List Ev) (s : SysState), Run s0 tr s → s0.execs = [] →
      ∀ i : Nat,
        (∀ tr1 tr2, tr = tr1 ++ tr2 →
          evCount EvKind.regK i tr1 ≤ 1 ∧
          evCount EvKind.spawnK i tr1 ≤ evCount EvKind.regK i tr1 ∧
          evCount EvKind.cntK i tr1 ≤ evCount EvKind.finK i tr1 ∧
          evCount EvKind.doneK i tr1 ≤ evCount EvKind.finK i tr1 ∧
          evCount EvKind.cntK i tr1 ≤ 1 ∧
          evCount EvKind.doneK i tr1 ≤ 1) ∧
        (∀ ex : Exec, s.execs[i]? = some ex → ex.phase = Phase.done →
          evCount EvKind.regK i tr = 1 ∧ evCount EvKind.spawnK i tr = 1 ∧
          evCount EvKind.finK i tr = 1 ∧ evCount EvKind.cntK i tr = 1 ∧
          evCount EvKind.doneK i tr = 1) := by
  intro s0 tr s hr h0 i
  have hzero : ∀ k : EvKind, contribL k i s0.execs = 0 := by
    intro k
    simp [contribL, h0]
  constructor
  · intro tr1 tr2 htr
    subst htr
    obtain ⟨m, hm1, _⟩ := run_append_split tr1 s0 tr2 s hr
    have hc : ∀ k : EvKind, evCount k i tr1 = contribL k i m.execs := by
      intro k
      have := run_contrib hm1 k i
      rw [hzero k] at this
      omega
    refine ⟨?_, ?_, ?_, ?_, ?_, ?_⟩ <;> simp only [hc] <;>
      first
        | exact contribL_le_one _ i m.execs
        | exact contribL_mono _ _ i m.execs (by decide)
  · intro ex hex hdone
    have hc : ∀ k : EvKind, evCount k i tr = contribL k i s.execs := by
      intro k
      have := run_contrib hr k i
      rw [hzero k] at this
      omega
    refine ⟨?_, ?_, ?_, ?_, ?_⟩ <;>
      simp [hc, contribL, hex, hdone, phaseNum, kThresh]

theorem C4_per_task_signals_witness :
    evCount EvKind.regK 0 wtr = 1 ∧ evCount EvKind.spawnK 0 wtr = 1 ∧
    evCount EvKind.finK 0 wtr = 1 ∧ evCount EvKind.cntK 0 wtr = 1 ∧
    evCount EvKind.doneK 0 wtr = 1 :=
  (C4_per_task_signals ws0 wtr ws6 wrun06 rfl 0).2 ⟨wTask, Phase.done, none⟩ rfl rfl

/-- Claim C5 counterexample: the claim states that a well-formed POST /run/
body with fields task and count appends exactly count copies of the task to
the intake queue. At count = -1 the loop for i := 0; i < count; i++
(src/main.go lines 144-146) runs zero times, so the number of appended
tasks is 0, which differs from count = -1: the claim as stated is false. -/
theorem C5_negative_count_counterexample :
    ¬ (((handleRun (RunBody.ok ⟨⟨7, "probe", "", 0⟩, -1⟩)
          ⟨[], 1, [], [], 0, 0⟩).1.queue.length : Int) =
        ((⟨[], 1, [], [], 0, 0⟩ : SysState).queue.length : Int) + (-1)) := by
  decide

/-- Claim C5 (amended): for every POST /run/ request whose body parses as
the task-and-count shape, exactly max(count, 0) copies of the task (that
is, count.toNat copies) are appended to the intake queue, nothing else in
the state changes, and the response is 202 Accepted with the JSON body
status tasks queued; for every request whose body does not parse, the
response is 400 and the state, in particular the queue, is unchanged. -/
theorem C5_run_request_amended :
    (∀ (req : RunRequest) (st : SysState),
        (handleRun (RunBody.ok req) st).1.queue =
          st.queue ++ List.replicate req.count.toNat req.task ∧
        (handleRun (RunBody.ok req) st).1.messages = st.messages ∧
        (handleRun (RunBody.ok req) st).1.execs = st.execs ∧
        (handleRun (RunBody.ok req) st).1.wg = st.wg ∧
        (handleRun (RunBody.ok req) st).1.taskCounter = st.taskCounter ∧
        (handleRun (RunBody.ok req) st).2 = ⟨202, RespBody.jsonStatus "tasks queued"⟩) ∧
    (∀ st : SysState,
        (handleRun RunBody.malformed st).1 = st ∧
        (handleRun RunBody.malformed st).2.status = 400) :=
  ⟨fun _ _ => ⟨rfl, rfl, rfl, rfl, rfl, rfl⟩, fun _ => ⟨rfl, rfl⟩⟩

/-- Claim C9: for every POST /run/ request whose body is well-formed but
whose count is less than or equal to zero, the enqueue loop runs zero
times: no task is enqueued, the whole state (queue, record store and both
counters) is unchanged, and the response is still 202 Accepted with the
JSON body status tasks queued. -/
theorem C9_nonpositive_count_noop :
    ∀ (req : RunRequest) (st : SysState), req.count ≤ 0 →
      (handleRun (RunBody.ok req) st).1 = st ∧
      (handleRun (RunBody.ok req) st).2 = ⟨202, RespBody.jsonStatus "tasks queued"⟩ := by
  intro req st h
  have hz : req.count.toNat = 0 := Int.toNat_of_nonpos h
  exact ⟨by simp [handleRun, hz], rfl⟩

theorem C9_nonpositive_count_noop_witness :
    (handleRun (RunBody.ok ⟨⟨3, "idle", "", 0⟩, -5⟩) ws0).1 = ws0 ∧
    (handleRun (RunBody.ok ⟨⟨3, "idle", "", 0⟩, -5⟩) ws0).2 =
      ⟨202, RespBody.jsonStatus "tasks queued"⟩ :=
  C9_nonpositive_count_noop ⟨⟨3, "idle", "", 0⟩, -5⟩ ws0 (by decide)

/-- Claim C10: for every GET or DELETE request to /messages/{id} whose path
suffix after /messages/ is not a parseable integer (strconv.Atoi errors),
the response is 400 Invalid message ID - not 404 - and the record store
(indeed the whole state) is unchanged, for both handleGetMessage and
handleDeleteMessage. -/
theorem C10_invalid_id_bad_request :
    ∀ (path : String) (st : SysState), atoi (msgPathId path) = none →
      (handleGetMessage path st).1 = st ∧
      (handleGetMessage path st).2 = ⟨400, RespBody.text "Invalid message ID"⟩ ∧
      (handleDeleteMessage path st).1 = st ∧
      (handleDeleteMessage path st).2 = ⟨400, RespBody.text "Invalid message ID"⟩ := by
  intro path st h
  refine ⟨?_, ?_, ?_, ?_⟩ <;> simp [handleGetMessage, handleDeleteMessage, h]

theorem C10_invalid_id_bad_request_witness :
    (handleGetMessage "/messages/abc" ws0).1 = ws0 ∧
    (handleGetMessage "/messages/abc" ws0).2 = ⟨400, RespBody.text "Invalid message ID"⟩ ∧
    (handleDeleteMessage "/messages/abc" ws0).1 = ws0 ∧
    (handleDeleteMessage "/messages/abc" ws0).2 = ⟨400, RespBody.text "Invalid message ID"⟩ :=
  C10_invalid_id_bad_request "/messages/abc" ws0 (by decide)

lemma hasFetch_iff (t : Task) (r : Bool) : hasFetch (processTask t r) ↔ t.url ≠ "" := by
  unfold hasFetch processTask
  by_cases h : t.url = ""
  · constructor
    · rintro ⟨u, b, hmem⟩
      rw [if_pos h] at hmem
      simp only [List.nil_append] at hmem
      exfalso
      revert hmem
      split <;> simp
    · intro hx
      exact absurd h hx
  · constructor
    · intro _
      exact h
    · intro _
      refine ⟨t.url, r, ?_⟩
      rw [if_neg h]
      simp

lemma hasSleep_iff (t : Task) (r : Bool) :
    hasSleep (processTask t r) ↔ 0 < t.sleepDuration := by
  unfold hasSleep processTask
  by_cases h : 0 < t.sleepDuration
  · constructor
    · intro _
      exact h
    · intro _
      refine ⟨t.sleepDuration, ?_⟩
      rw [if_pos h]
      simp
  · constructor
    · rintro ⟨n, hmem⟩
      rw [if_neg h] at hmem
      simp only [List.append_nil] at hmem
      exfalso
      revert hmem
      split <;> simp
    · intro hx
      exact absurd hx h

lemma step_enq_inv {s : SysState} {e : Ev} {s1 : SysState} (hs : Step s e s1) :
    ∀ t : Task, e = Ev.enq t →
      s.queue.length < queueCapacity ∧ s1 = { s with queue := s.queue ++ [t] } := by
  cases hs with
  | enq t h =>
    intro t2 he
    injection he with h2
    subst h2
    exact ⟨h, rfl⟩
  | deq t rest h => exact fun t2 he => Ev.noConfusion he
  | reg i ex hi hp => exact fun t2 he => Ev.noConfusion he
  | spawn i ex hi hp => exact fun t2 he => Ev.noConfusion he
  | finish i ex oc hi hp hoc => exact fun t2 he => Ev.noConfusion he
  | count i ex hi hp => exact fun t2 he => Ev.noConfusion he
  | done i ex hi hp => exact fun t2 he => Ev.noConfusion he

lemma step_deq_inv {s : SysState} {e : Ev} {s1 : SysState} (hs : Step s e s1) :
    ∀ i : Nat, e = Ev.deq i →
      ∃ t rest, s.queue = t :: rest ∧ i = s.execs.length ∧
        s1 = { s with queue := rest,
                      execs := s.execs ++ [⟨t, Phase.dequeued, none⟩] } := by
  cases hs with
  | deq t rest h =>
    intro i he
    injection he with h2
    subst h2
    exact ⟨t, rest, h, rfl, rfl⟩
  | enq t h => exact fun i he => Ev.noConfusion he
  | reg i ex hi hp => exact fun j he => Ev.noConfusion he
  | spawn i ex hi hp => exact fun j he => Ev.noConfusion he
  | finish i ex oc hi hp hoc => exact fun j he => Ev.noConfusion he
  | count i ex hi hp => exact fun j he => Ev.noConfusion he
  | done i ex hi hp => exact fun j he => Ev.noConfusion he

lemma step_finish_inv {s : SysState} {e : Ev} {s1 : SysState} (hs : Step s e s1) :
    ∀ (i : Nat) (oc : Option Bool), e = Ev.finish i oc →
      ∃ ex, s.execs[i]? = some ex ∧ ex.phase = Phase.running ∧ ocValid ex.task oc ∧
        s1 = { s with execs := modifyAt (fun x => { x with phase := Phase.executed, outcome := oc }) i s.execs } := by
  cases hs with
  | finish i ex oc hi hp hoc =>
    intro j oc2 he
    injection he with h2 h3
    subst h2
    subst h3
    exact ⟨ex, hi, hp, hoc, rfl⟩
  | enq t h => exact fun j oc2 he => Ev.noConfusion he
  | deq t rest h => exact fun j oc2 he => Ev.noConfusion he
  | reg i ex hi hp => exact fun j oc2 he => Ev.noConfusion he
  | spawn i ex hi hp => exact fun j oc2 he => Ev.noConfusion he
  | count i ex hi hp => exact fun j oc2 he => Ev.noConfusion he
  | done i ex hi hp => exact fun j oc2 he => Ev.noConfusion he

lemma step_count_inv {s : SysState} {e : Ev} {s1 : SysState} (hs : Step s e s1) :
    ∀ i : Nat, e = Ev.count i →
      ∃ ex, s.execs[i]? = some ex ∧ ex.phase = Phase.executed ∧
        s1 = { s with execs := modifyAt (fun x => { x with phase := Phase.counted }) i s.execs,
                      taskCounter := counterStep s.taskCounter 1 } := by
  cases hs with
  | count i ex hi hp =>
    intro j he
    injection he with h2
    subst h2
    exact ⟨ex, hi, hp, rfl⟩
  | enq t h => exact fun j he => Ev.noConfusion he
  | deq t rest h => exact fun j he => Ev.noConfusion he
  | reg i ex hi hp => exact fun j he => Ev.noConfusion he
  | spawn i ex hi hp => exact fun j he => Ev.noConfusion he
  | finish i ex oc hi hp hoc => exact fun j he => Ev.noConfusion he
  | done i ex hi hp => exact fun j he => Ev.noConfusion he

/-- Claim C6: execute(task) (processTask) performs a network fetch exactly
when the task URL is non-empty, suspends for the sleep duration exactly
when it is positive, and always returns normally: a fetch failure is only
logged, never propagated, and never changes the bookkeeping - a failed
fetch still counts as one finished task. Formally: (1) the effect trace of
processTask contains a fetch exactly when the URL is non-empty; (2) it
contains a sleep exactly when the duration is positive; (3) for every
running execution and every fetch outcome consistent with the task
(success, failure, or no fetch) the executor-return step exists - the
executor returns normally whatever the fetch did; (4) the executor-return
step changes no counter, no queue and no record store, for failures as for
successes; (5) after the executor returns - with any outcome oc, including
a failed fetch (oc = some false) - the aggregator increment and the
barrier decrement still follow: Completed-total rises by exactly one and
the outstanding-count falls by exactly one. -/
theorem C6_executor_contract :
    (∀ (t : Task) (r : Bool), hasFetch (processTask t r) ↔ t.url ≠ "") ∧
    (∀ (t : Task) (r : Bool), hasSleep (processTask t r) ↔ 0 < t.sleepDuration) ∧
    (∀ (s : SysState) (i : Nat) (ex : Exec) (oc : Option Bool),
        s.execs[i]? = some ex → ex.phase = Phase.running → ocValid ex.task oc →
        ∃ s1, Step s (Ev.finish i oc) s1) ∧
    (∀ (s s1 : SysState) (i : Nat) (oc : Option Bool), Step s (Ev.finish i oc) s1 →
        s1.wg = s.wg ∧ s1.taskCounter = s.taskCounter ∧ s1.queue = s.queue ∧
          s1.messages = s.messages) ∧
    (∀ (s s1 : SysState) (i : Nat) (oc : Option Bool), Step s (Ev.finish i oc) s1 →
        ∃ s2 s3, Step s1 (Ev.count i) s2 ∧ Step s2 (Ev.done i) s3 ∧
          s3.taskCounter = s.taskCounter + 1 ∧ s3.wg = s.wg - 1 ∧
          s3.queue = s.queue) := by
  refine ⟨hasFetch_iff, hasSleep_iff, ?_, ?_, ?_⟩
  · intro s i ex oc hi hp hoc
    exact ⟨_, Step.finish s i ex oc hi hp hoc⟩
  · intro s s1 i oc hs
    obtain ⟨ex, hi, hp, hoc, rfl⟩ := step_finish_inv hs i oc rfl
    exact ⟨rfl, rfl, rfl, rfl⟩
  · intro s s1 i oc hs
    obtain ⟨ex, hi, hp, hoc, rfl⟩ := step_finish_inv hs i oc rfl
    have h1 := getq_modifyAt_self
      (fun e => { e with phase := Phase.executed, outcome := oc }) i s.execs ex hi
    have h2 := getq_modifyAt_self (fun e => { e with phase := Phase.counted }) i
      (modifyAt (fun e => { e with phase := Phase.executed, outcome := oc }) i s.execs)
      ({ ex with phase := Phase.executed, outcome := oc }) h1
    exact ⟨_, _, Step.count _ i _ h1 rfl, Step.done _ i _ h2 rfl, rfl, rfl, rfl⟩

theorem C6_executor_contract_witness :
    (hasFetch (processTask wTask true) ↔ wTask.url ≠ "") ∧
    (∃ s1, Step ws3 (Ev.finish 0 none) s1) ∧
    (ws4.wg = ws3.wg ∧ ws4.taskCounter = ws3.taskCounter ∧ ws4.queue = ws3.queue ∧
      ws4.messages = ws3.messages) ∧
    (∃ s2 s3, Step ws4 (Ev.count 0) s2 ∧ Step s2 (Ev.done 0) s3 ∧
        s3.taskCounter = ws3.taskCounter + 1 ∧ s3.wg = ws3.wg - 1 ∧
        s3.queue = ws3.queue) :=
  ⟨C6_executor_contract.1 wTask true,
   C6_executor_contract.2.2.1 ws3 0 ⟨wTask, Phase.running, none⟩ none rfl rfl
     (Iff.intro (fun _ => rfl) (fun _ => rfl)),
   C6_executor_contract.2.2.2.1 ws3 ws4 0 none wst4,
   C6_executor_contract.2.2.2.2 ws3 ws4 0 none wst4⟩

lemma step_taskCounter_mono {s : SysState} {e : Ev} {s1 : SysState}
    (hs : Step s e s1) : s.taskCounter ≤ s1.taskCounter := by
  cases hs <;> simp [counterStep] <;> omega

lemma step_taskCounter_writer {s : SysState} {e : Ev} {s1 : SysState}
    (hs : Step s e s1) :
    s1.taskCounter = s.taskCounter ∨
      ∃ i, e = Ev.count i ∧ s1.taskCounter = counterStep s.taskCounter 1 := by
  cases hs with
  | enq t h => exact Or.inl rfl
  | deq t rest h => exact Or.inl rfl
  | reg i ex hi hp => exact Or.inl rfl
  | spawn i ex hi hp => exact Or.inl rfl
  | finish i ex oc hi hp hoc => exact Or.inl rfl
  | count i ex hi hp => exact Or.inr ⟨i, rfl, rfl⟩
  | done i ex hi hp => exact Or.inl rfl

/-- Claim C7: the Completed-total (taskCounter) is monotonically
non-decreasing over the whole process lifetime, incremented by exactly one
per finished task execution, never decremented and never reset, and only
the single aggregator consumer writes it. Formally: every step of the
concurrent core leaves taskCounter unchanged or - exactly at the
counterChan rendezvous of the single counter goroutine - replaces it by
counterStep taskCounter 1, its increment by one; it never decreases along
any step or any run; and none of the HTTP handlers writes it (countHandler
changes nothing at all). The lock-guarded incrementCounter helper does not
occur in any transition: every write in the system is the aggregator
rendezvous above. -/
theorem C7_completed_total_monotone :
    (∀ (s : SysState) (e : Ev) (s1 : SysState), Step s e s1 →
        s.taskCounter ≤ s1.taskCounter) ∧
    (∀ (s0 : SysState) (tr : List Ev) (s : SysState), Run s0 tr s →
        s0.taskCounter ≤ s.taskCounter) ∧
    (∀ (s : SysState) (e : Ev) (s1 : SysState), Step s e s1 →
        s1.taskCounter = s.taskCounter ∨
          ∃ i, e = Ev.count i ∧ s1.taskCounter = counterStep s.taskCounter 1) ∧
    (∀ (s : SysState) (e : Ev) (s1 : SysState) (i : Nat), Step s e s1 →
        e = Ev.count i → s1.taskCounter = s.taskCounter + 1) ∧
    (∀ (b : RunBody) (st : SysState),
        (handleRun b st).1.taskCounter = st.taskCounter) ∧
    (∀ (p : String) (st : SysState),
        (handleGetMessage p st).1.taskCounter = st.taskCounter) ∧
    (∀ (m : Option Message) (st : SysState),
        (handlePostMessage m st).1.taskCounter = st.taskCounter) ∧
    (∀ (p : String) (st : SysState),
        (handleDeleteMessage p st).1.taskCounter = st.taskCounter) ∧
    (∀ st : SysState, (countHandler st).1 = st) := by
  refine ⟨fun s e s1 hs => step_taskCounter_mono hs, ?_, fun s e s1 hs => step_taskCounter_writer hs,
    ?_, ?_, ?_, ?_, ?_, fun st => rfl⟩
  · intro s0 tr s hr
    induction hr with
    | nil s => exact le_refl _
    | cons hs _ ih => exact le_trans (step_taskCounter_mono hs) ih
  · intro s e s1 i hs he
    obtain ⟨ex, hi, hp, rfl⟩ := step_count_inv hs i he
    rfl
  · intro b st
    cases b <;> rfl
  · intro p st
    cases h : atoi (msgPathId p) with
    | none => simp [handleGetMessage, h]
    | some id =>
      cases h2 : st.messages.lookup id with
      | none => simp [handleGetMessage, h, h2]
      | some m => simp [handleGetMessage, h, h2]
  · intro m st
    cases m <;> rfl
  · intro p st
    cases h : atoi (msgPathId p) with
    | none => simp [handleDeleteMessage, h]
    | some id =>
      cases h2 : st.messages.lookup id with
      | none => simp [handleDeleteMessage, h, h2]
      | some m => simp [handleDeleteMessage, h, h2]

theorem C7_completed_total_monotone_witness :
    ws4.taskCounter ≤ ws5.taskCounter ∧
    ws0.taskCounter ≤ ws6.taskCounter ∧
    ws5.taskCounter = ws4.taskCounter + 1 ∧
    (countHandler ws6).1 = ws6 :=
  ⟨C7_completed_total_monotone.1 ws4 (Ev.count 0) ws5 wst5,
   C7_completed_total_monotone.2.1 ws0 wtr ws6 wrun06,
   C7_completed_total_monotone.2.2.2.1 ws4 (Ev.count 0) ws5 0 wst5 rfl,
   C7_completed_total_monotone.2.2.2.2.2.2.2.2 ws6⟩

/-- Claim C8: the intake queue has fixed capacity 1000; tasks are dequeued
in exactly the order they were enqueued (strict FIFO: nothing dropped,
duplicated or reordered), and an enqueue attempted while the queue holds
1000 tasks blocks the producer - no transition exists - until a worker
dequeues a task, after which the enqueue transition exists again; the task
is never dropped. Formally: (1) the capacity constant is 1000; (2) in every
reachable state the queue holds at most 1000 tasks; (3) no enqueue step
exists from a state with 1000 queued tasks; (4) after any dequeue step
from a full queue, the enqueue step exists again; (5) FIFO conservation:
for every run starting with no dispatched records, the initial queue
followed by the enqueued tasks in order equals the dequeued tasks in
dequeue order followed by the current queue - so dequeue order is exactly
enqueue order, with no loss, duplication or reordering. -/
theorem C8_queue_capacity_fifo :
    queueCapacity = 1000 ∧
    (∀ (s0 : SysState) (tr : List Ev) (s : SysState), Run s0 tr s → Inv s0 →
        s.queue.length ≤ 1000) ∧
    (∀ (s : SysState) (t : Task), s.queue.length = 1000 →
        ¬ ∃ s1, Step s (Ev.enq t) s1) ∧
    (∀ (s s1 : SysState) (i : Nat) (t : Task), s.queue.length = 1000 →
        Step s (Ev.deq i) s1 → ∃ s2, Step s1 (Ev.enq t) s2) ∧
    (∀ (s0 : SysState) (tr : List Ev) (s : SysState), Run s0 tr s → s0.execs = [] →
        s0.queue ++ enqList tr = s.execs.map taskOf ++ s.queue) := by
  refine ⟨rfl, ?_, ?_, ?_, ?_⟩
  · intro s0 tr s hr hi
    exact (inv_run hr hi).2
  · intro s t hlen hex
    obtain ⟨s1, hs⟩ := hex
    obtain ⟨h, _⟩ := step_enq_inv hs t rfl
    rw [hlen] at h
    simp [queueCapacity] at h
  · intro s s1 i t hlen hs
    obtain ⟨t2, rest, h, hi, rfl⟩ := step_deq_inv hs i rfl
    refine ⟨_, Step.enq _ t ?_⟩
    have h2 : s.queue.length = rest.length + 1 := by
      rw [h]
      rfl
    simp only [queueCapacity]
    simp
    omega
  · intro s0 tr s hr h0
    have h := run_flow hr
    rw [h0] at h
    simpa using h.symm

theorem C8_queue_capacity_fifo_witness :
    ws6.queue.length ≤ 1000 ∧
    ws0.queue ++ enqList wtr = ws6.execs.map taskOf ++ ws6.queue :=
  ⟨C8_queue_capacity_fifo.2.1 ws0 wtr ws6 wrun06 ⟨by decide, by decide⟩,
   C8_queue_capacity_fifo.2.2.2.2 ws0 wtr ws6 wrun06 rfl⟩

end SyncSrv
